import Mathlib

/-!
Verification of the Patient-App Record Store (src/main.py).

The development shallowly embeds the data model and the operations of the
patient-record application: the table is a `List Row` of textual cells (the
canonical shape produced by `load_patients`, which reads every
identifier-like column as text and re-stringifies numeric cells on the
persist-then-reload round trip), and each mutating operation of the source
is translated into a pure function returning either the new table or the
error the source reports.  Numeric parsing models Python `int(s)` /
`pd.to_numeric(errors="coerce")` on integer-form numerals; string
comparison models Python code-point lexicographic order.
-/

/-- Decimal digit character for a value below ten, as produced by Python
`str` of a number. -/
def digitCh (d : Nat) : Char :=
  match d with
  | 0 => '0'
  | 1 => '1'
  | 2 => '2'
  | 3 => '3'
  | 4 => '4'
  | 5 => '5'
  | 6 => '6'
  | 7 => '7'
  | 8 => '8'
  | _ => '9'

/-- Fuel-driven most-significant-first decimal digit expansion of a natural
number; the fuel is structural so that the kernel can evaluate it. -/
def natDigitsAux : Nat → Nat → List Char
  | 0, _ => []
  | fuel + 1, n =>
    if n < 10 then [digitCh n]
    else natDigitsAux fuel (n / 10) ++ [digitCh (n % 10)]

/-- Decimal rendering of a natural number, modelling Python `str(n)`. -/
def natToStr (n : Nat) : String := ⟨natDigitsAux (n + 1) n⟩

/-- Decimal rendering of an integer, modelling Python `str(i)`. -/
def intToStr (i : Int) : String :=
  if i < 0 then ⟨'-' :: (natToStr (-i).toNat).data⟩ else natToStr i.toNat

/-- One step of decimal accumulation while parsing a digit string. -/
def pstep (a : Nat) (c : Char) : Nat := a * 10 + (c.toNat - 48)

/-- Value of a list of decimal digit characters. -/
def parseNatDigits (l : List Char) : Nat := l.foldl pstep 0

/-- Value of a digit string, `none` unless it is a non-empty run of
decimal digits. -/
def digitsVal? (l : List Char) : Option Nat :=
  if (!l.isEmpty) && l.all Char.isDigit then some (parseNatDigits l) else none

/-- Integer parse of a cell, modelling Python `int(s)` and elementwise
`pd.to_numeric(errors="coerce")` on integer-form numerals: an optional
sign followed by a non-empty run of decimal digits.  (Surrounding
whitespace tolerance and decimal-point forms of the pandas parser are not
modelled; no cell produced by the store carries them.) -/
def toNumeric? (s : String) : Option Int :=
  match s.data with
  | [] => none
  | c :: rest =>
    if c = '-' then (digitsVal? rest).map (fun n => -(n : Int))
    else if c = '+' then (digitsVal? rest).map (fun n => (n : Int))
    else (digitsVal? (c :: rest)).map (fun n => (n : Int))

/-- Python `str.isdigit` on ASCII text: non-empty and all decimal digits. -/
def isDigitStr (s : String) : Bool := (!s.data.isEmpty) && s.data.all Char.isDigit

/-- Python `str.strip()` on a character list: drop whitespace from both
ends. -/
def stripList (l : List Char) : List Char :=
  ((l.dropWhile Char.isWhitespace).reverse.dropWhile Char.isWhitespace).reverse

/-- Python `str.strip()`. -/
def pyStrip (s : String) : String := ⟨stripList s.data⟩

/-- Python `str.lower()` (ASCII range). -/
def pyLower (s : String) : String := ⟨s.data.map Char.toLower⟩

/-- Python substring test `needle in hay`. -/
def containsStr (hay needle : String) : Bool := decide (needle.data <:+: hay.data)

/-- Strict code-point lexicographic order on character lists, as Python
compares strings. -/
def lexLt : List Char → List Char → Bool
  | [], [] => false
  | [], _ :: _ => true
  | _ :: _, [] => false
  | a :: as, b :: bs =>
    decide (a.toNat < b.toNat) || (decide (a.toNat = b.toNat) && lexLt as bs)

/-- Reflexive code-point lexicographic order on character lists. -/
def lexLe (l₁ l₂ : List Char) : Bool := lexLt l₁ l₂ || decide (l₁ = l₂)

/-- Python `a <= b` on strings. -/
def strLe (a b : String) : Bool := lexLe a.data b.data

/-- Python `a < b` on strings. -/
def strLt (a b : String) : Bool := lexLt a.data b.data

/-- Strict ascending comparison of two text cells under pandas
`sort_values` with the default `na_position='last'`: the empty cell
stands for a missing value of the loaded frame and sorts after every
present value; present values compare as Python strings. -/
def naLt (a b : String) : Bool :=
  if a = "" then false else if b = "" then true else strLt a b

/-- Reflexive ascending comparison of two text cells with the empty
(missing) cell last. -/
def naLe (a b : String) : Bool :=
  if a = "" then decide (b = "") else if b = "" then true else strLe a b

/-- Fixed ordered column list of the schema (`DEFAULT_COLUMNS` in the
source). -/
def DEFAULT_COLUMNS : List String :=
  ["SerialNo", "PhotoPath", "Name", "Email", "Gender", "Age", "Address",
   "PhoneNo", "Occupation", "AadharNo", "Symptoms", "Treatment",
   "StartDate", "EndDate", "Satisfied"]

/-- One patient record in its canonical post-reload shape: every schema
column holds text (`load_patients` reads identifier-like columns with
`dtype=str` and the persist-then-reload round trip re-stringifies numeric
cells; an empty cell is the empty string). -/
structure Row where
  serialNo : String
  photoPath : String
  name : String
  email : String
  gender : String
  age : String
  address : String
  phoneNo : String
  occupation : String
  aadharNo : String
  symptoms : String
  treatment : String
  startDate : String
  endDate : String
  satisfied : String
deriving DecidableEq

/-- The row whose every cell is empty text. -/
def emptyRow : Row :=
  { serialNo := "", photoPath := "", name := "", email := "", gender := "",
    age := "", address := "", phoneNo := "", occupation := "", aadharNo := "",
    symptoms := "", treatment := "", startDate := "", endDate := "",
    satisfied := "" }

instance : Inhabited Row := ⟨emptyRow⟩

/-- Column lookup on a record, as `r.get(c, '')` over the schema columns. -/
def Row.get (r : Row) (c : String) : String :=
  if c = "SerialNo" then r.serialNo
  else if c = "PhotoPath" then r.photoPath
  else if c = "Name" then r.name
  else if c = "Email" then r.email
  else if c = "Gender" then r.gender
  else if c = "Age" then r.age
  else if c = "Address" then r.address
  else if c = "PhoneNo" then r.phoneNo
  else if c = "Occupation" then r.occupation
  else if c = "AadharNo" then r.aadharNo
  else if c = "Symptoms" then r.symptoms
  else if c = "Treatment" then r.treatment
  else if c = "StartDate" then r.startDate
  else if c = "EndDate" then r.endDate
  else if c = "Satisfied" then r.satisfied
  else ""

/-- The `SerialNo` column of the table (`self.patients_df['SerialNo'].values`,
text-typed by the load). -/
def serials (tbl : List Row) : List String := tbl.map Row.serialNo

/-- The rows' serial numbers that parse as numbers
(`pd.to_numeric(self.patients_df['SerialNo'], errors='coerce')` with the
unparsable entries dropped). -/
def numericSerials (tbl : List Row) : List Int :=
  tbl.filterMap (fun r => toNumeric? r.serialNo)

/-- The next serial number proposed for a new registration
(`show_new_patient`, src/main.py lines 162-166):
`int(numeric_serials.max()) + 1` when some serial parses, else `1`. -/
def nextSerial (tbl : List Row) : Int :=
  match numericSerials tbl with
  | [] => 1
  | x :: xs => xs.foldl max x + 1

/-- The largest numeric serial of the current table, or `0` when no serial
parses (`_import_db`, src/main.py lines 956-957). -/
def maxExistingSerial (tbl : List Row) : Int :=
  match numericSerials tbl with
  | [] => 0
  | x :: xs => xs.foldl max x

/-- The new-registration form: the raw text of every entry of the
`show_new_patient` window (combo boxes are also plain string variables). -/
structure NewForm where
  serial : String
  name : String
  email : String
  gender : String
  age : String
  address : String
  phone : String
  occupation : String
  aadhar : String
  symptoms : String
  treatment : String
  startDate : String
  endDate : String
  satisfied : String
deriving DecidableEq

/-- The failure reported by `_new_submit` for an invalid registration. -/
inductive CreateError where
  | missingField (f : String)
  | ageNotNumeric
  | serialNotNumeric
  | serialExists (k : Int)
deriving DecidableEq

/-- Registration (`_new_submit`, src/main.py lines 221-275, composed with
the `save_patients` persist-then-reload normalisation): required fields
checked in order, then `int(age)`, then `int(serial)`, then the
duplicate-serial check `str(serial) in df['SerialNo'].values`; on success
the new row is appended with its numeric cells re-stringified by the
reload.  The photo copy is external I/O and is modelled as an empty
photo reference. -/
def createPatient (tbl : List Row) (f : NewForm) : Except CreateError (List Row) :=
  if pyStrip f.name = "" then .error (.missingField "name")
  else if pyStrip f.email = "" then .error (.missingField "email")
  else if pyStrip f.gender = "" then .error (.missingField "gender")
  else if pyStrip f.age = "" then .error (.missingField "age")
  else if pyStrip f.phone = "" then .error (.missingField "phone")
  else
    match toNumeric? f.age with
    | none => .error .ageNotNumeric
    | some a =>
      match toNumeric? f.serial with
      | none => .error .serialNotNumeric
      | some k =>
        if intToStr k ∈ serials tbl then .error (.serialExists k)
        else
          let newRow : Row :=
            { serialNo := intToStr k, photoPath := "",
              name := pyStrip f.name, email := pyStrip f.email,
              gender := f.gender, age := intToStr a,
              address := pyStrip f.address, phoneNo := pyStrip f.phone,
              occupation := pyStrip f.occupation, aadharNo := pyStrip f.aadhar,
              symptoms := pyStrip f.symptoms, treatment := pyStrip f.treatment,
              startDate := f.startDate, endDate := f.endDate,
              satisfied := f.satisfied }
          .ok (tbl ++ [newRow])

/-- The edit-window form of `_edit_open_window`: the twelve entry columns
plus the two scrolled text boxes. -/
structure EditForm where
  serialNo : String
  name : String
  email : String
  gender : String
  age : String
  address : String
  phoneNo : String
  occupation : String
  aadharNo : String
  startDate : String
  endDate : String
  satisfied : String
  symptoms : String
  treatment : String
deriving DecidableEq

/-- The failure reported by `save_changes` in the edit window. -/
inductive EditError where
  | notFound
  | serialExists
deriving DecidableEq

/-- Overwrite of a record by the edit window (`save_changes`, src/main.py
lines 609-611): the twelve entry columns take the raw entry text, the two
text boxes are stripped, and `PhotoPath` is not an entry so it is kept. -/
def applyEditForm (old : Row) (e : EditForm) : Row :=
  { old with
    serialNo := e.serialNo, name := e.name, email := e.email,
    gender := e.gender, age := e.age, address := e.address,
    phoneNo := e.phoneNo, occupation := e.occupation,
    aadharNo := e.aadharNo, startDate := e.startDate, endDate := e.endDate,
    satisfied := e.satisfied, symptoms := pyStrip e.symptoms,
    treatment := pyStrip e.treatment }

/-- The pandas index labels of the rows matching a serial number
(`self.patients_df[self.patients_df['SerialNo'] == str(original_serial)].index`;
after a reload the labels are the positions `0..n-1`). -/
def matchIdxs (tbl : List Row) (orig : String) : List Nat :=
  (List.range tbl.length).filter
    (fun i => decide ((tbl.getD i emptyRow).serialNo = orig))

/-- Edit-window save (`save_changes`, src/main.py lines 598-616).  The
found-check is `if not idx_list.any()`, numpy truthiness of the label
list: it holds exactly when some matching label is non-zero, so a lone
match at label `0` is reported as not found.  Then a changed serial
already used by any row is rejected, and otherwise the first matching row
is overwritten in place. -/
def saveChanges (tbl : List Row) (orig : String) (e : EditForm) :
    Except EditError (List Row) :=
  if (matchIdxs tbl orig).any (fun i => decide (i ≠ 0)) = false then
    .error .notFound
  else
    let idx := (matchIdxs tbl orig).headD 0
    if e.serialNo ≠ orig ∧ e.serialNo ∈ serials tbl then .error .serialExists
    else .ok (tbl.set idx (applyEditForm (tbl.getD idx emptyRow) e))

/-- The failure of the duplicates-page serial edit. -/
inductive DupEditError where
  | notNumeric
  | serialExists
  | notFound
deriving DecidableEq

/-- Serial-number edit on the duplicates page (`_edit_duplicate_serial`,
src/main.py lines 1056-1077): an empty or unchanged entry silently does
nothing; a non-digit entry and an already-used entry are rejected; the
missing-original `IndexError` of `.index[0]` is modelled as an error
leaving the table unchanged.  `orig` stands for the clicked row's serial
text (`tree.item(row_id)['values'][1]`). -/
def editDuplicateSerial (tbl : List Row) (orig newSer : String) :
    Except DupEditError (List Row) :=
  if newSer = "" ∨ newSer = orig then .ok tbl
  else if isDigitStr newSer = false then .error .notNumeric
  else if newSer ∈ serials tbl then .error .serialExists
  else
    match matchIdxs tbl orig with
    | [] => .error .notFound
    | i :: _ => .ok (tbl.set i { (tbl.getD i emptyRow) with serialNo := newSer })

/-- Deletion of the checked records (`_delete_checked`, src/main.py lines
744-753): with no checked serial the call is a warning-only no-op;
otherwise every row whose serial is in the checked set is removed and the
reported count is the number of checked serials.  The second component is
the reported count. -/
def deleteChecked (tbl : List Row) (ids : List String) : List Row × Nat :=
  if ids.isEmpty then (tbl, 0)
  else (tbl.filter (fun r => decide (r.serialNo ∉ ids)), ids.length)

/-- Assignment of a fresh serial to the external row at one position
(`new_df['SerialNo'] = range(max_existing_serial + 1, ...)`, composed
with the reload that re-stringifies the numeric identifiers). -/
def assignSerial (m : Int) (p : Nat × Row) : Row :=
  { p.2 with serialNo := intToStr (m + 1 + (p.1 : Int)) }

/-- A record with its serial number blanked, used to compare the
non-identifier columns of two rows. -/
def blankSerial (r : Row) : Row := { r with serialNo := "" }

/-- Bulk import (`_import_db`, src/main.py lines 951-970, composed with the
persist-then-reload normalisation): the external rows (already filled to
the schema columns) receive the fresh serial block
`range(max_existing_serial + 1, max_existing_serial + 1 + len(new_df))`
regardless of their own identifier column, and are appended; the reported
count is the number of imported rows. -/
def importDb (tbl : List Row) (ext : List Row) : List Row × Nat :=
  (tbl ++ ext.enum.map (assignSerial (maxExistingSerial tbl)), ext.length)

/-- A mutating operation of the application, as named by the invariants
section of the specification. -/
inductive Op where
  | create (f : NewForm)
  | editWin (orig : String) (e : EditForm)
  | editDup (orig newSer : String)
  | del (ids : List String)
  | imp (ext : List Row)

/-- Effect of one operation on the stored table; a rejected operation
leaves the table unchanged (the source mutates `self.patients_df` only
after all checks pass). -/
def applyOp (tbl : List Row) : Op → List Row
  | .create f =>
    match createPatient tbl f with
    | .ok t => t
    | .error _ => tbl
  | .editWin orig e =>
    match saveChanges tbl orig e with
    | .ok t => t
    | .error _ => tbl
  | .editDup orig newSer =>
    match editDuplicateSerial tbl orig newSer with
    | .ok t => t
    | .error _ => tbl
  | .del ids => (deleteChecked tbl ids).1
  | .imp ext => (importDb tbl ext).1

/-- Effect of a sequence of operations on the stored table. -/
def applyOps (tbl : List Row) (ops : List Op) : List Row := ops.foldl applyOp tbl

/-- A displayed cell of the view: the copied data frame starts with the
stored text and the sort step may overwrite the sort column with its
parsed numeric value (`pd.to_numeric(..., errors='coerce')`, missing for
an unparsable entry). -/
inductive DCell where
  | s (v : String)
  | n (v : Option Int)
deriving DecidableEq

/-- A row of the view's working data frame (`df = self.patients_df.copy()`
and the transformations `_get_filtered_df` applies to it). -/
structure VRow where
  serialNo : DCell
  photoPath : DCell
  name : DCell
  email : DCell
  gender : DCell
  age : DCell
  address : DCell
  phoneNo : DCell
  occupation : DCell
  aadharNo : DCell
  symptoms : DCell
  treatment : DCell
  startDate : DCell
  endDate : DCell
  satisfied : DCell
deriving DecidableEq

/-- The view copy of a stored record: every cell still textual. -/
def Row.toV (r : Row) : VRow :=
  { serialNo := .s r.serialNo, photoPath := .s r.photoPath,
    name := .s r.name, email := .s r.email, gender := .s r.gender,
    age := .s r.age, address := .s r.address, phoneNo := .s r.phoneNo,
    occupation := .s r.occupation, aadharNo := .s r.aadharNo,
    symptoms := .s r.symptoms, treatment := .s r.treatment,
    startDate := .s r.startDate, endDate := .s r.endDate,
    satisfied := .s r.satisfied }

/-- Column lookup on a view row. -/
def VRow.get (r : VRow) (c : String) : DCell :=
  if c = "SerialNo" then r.serialNo
  else if c = "PhotoPath" then r.photoPath
  else if c = "Name" then r.name
  else if c = "Email" then r.email
  else if c = "Gender" then r.gender
  else if c = "Age" then r.age
  else if c = "Address" then r.address
  else if c = "PhoneNo" then r.phoneNo
  else if c = "Occupation" then r.occupation
  else if c = "AadharNo" then r.aadharNo
  else if c = "Symptoms" then r.symptoms
  else if c = "Treatment" then r.treatment
  else if c = "StartDate" then r.startDate
  else if c = "EndDate" then r.endDate
  else if c = "Satisfied" then r.satisfied
  else .s ""

/-- Python `str(cell)` on a view cell (`float('nan')` prints as `nan`). -/
def dcellStr : DCell → String
  | .s v => v
  | .n (some v) => intToStr v
  | .n none => "nan"

/-- Numeric parse of a view cell, as elementwise
`pd.to_numeric(errors='coerce')`. -/
def toNumericCell : DCell → Option Int
  | .s t => toNumeric? t
  | .n o => o

/-- Replacement of the sort column by its parsed numeric values
(`df[sort_by] = pd.to_numeric(df[sort_by], errors='coerce')`,
src/main.py line 376); only `SerialNo` and `Age` are so converted. -/
def numifyCol (c : String) (r : VRow) : VRow :=
  if c = "SerialNo" then { r with serialNo := .n (toNumericCell r.serialNo) }
  else if c = "Age" then { r with age := .n (toNumericCell r.age) }
  else r

/-- Full-row free-text search: the lowercased needle occurs in some
column's lowercased textual representation
(`any(s in str(cell).lower() for cell in r)`, src/main.py line 370). -/
def vrowMatchesSearch (s : String) (r : VRow) : Bool :=
  DEFAULT_COLUMNS.any (fun c => containsStr (pyLower (dcellStr (r.get c))) s)

/-- The view query of `show_view_records`: search text, gender equality
filter (sentinel `"All"`), and sort key. -/
structure Query where
  search : String
  genderFilter : String
  sortBy : String
deriving DecidableEq

/-- The data frame after the search and gender-filter steps of
`_get_filtered_df` (src/main.py lines 368-372). -/
def filteredDf (tbl : List Row) (q : Query) : List VRow :=
  let df := tbl.map Row.toV
  let s := pyLower (pyStrip q.search)
  let df2 := if s = "" then df else df.filter (vrowMatchesSearch s)
  if q.genderFilter = "All" then df2
  else df2.filter (fun r => decide (r.gender = DCell.s q.genderFilter))

/-- The data frame right before `sort_values`: for the numeric-typed sort
keys the sort column has been replaced by its parsed values
(src/main.py line 376). -/
def dfBeforeSort (tbl : List Row) (q : Query) : List VRow :=
  if decide (q.sortBy ∈ ["SerialNo", "Age"]) then
    (filteredDf tbl q).map (numifyCol q.sortBy)
  else filteredDf tbl q

/-- Comparison of two view cells under ascending `sort_values` with the
default `na_position='last'`: numeric cells compare by value with the
missing (unparsable) entries last, and text cells compare as Python
strings with the empty (missing) cell last.  A mixed text/numeric
comparison never arises (the sort column is converted uniformly); those
cases are ordered arbitrarily so that the comparator is total. -/
def dcellLE : DCell → DCell → Bool
  | DCell.n a, DCell.n b =>
    match a, b with
    | some x, some y => decide (x ≤ y)
    | some _, none => true
    | none, none => true
    | none, some _ => false
  | DCell.n _, DCell.s _ => true
  | DCell.s _, DCell.n _ => false
  | DCell.s a, DCell.s b => naLe a b

/-- Row comparison by the sort column. -/
def rowLE (c : String) (a b : VRow) : Bool := dcellLE (a.get c) (b.get c)

/-- The filtered and sorted view data frame (`_get_filtered_df`,
src/main.py lines 367-379).  `sort_values` uses the pandas default
`kind='quicksort'`, which leaves the relative order of equal keys
unspecified; it is modelled here by one concrete comparison sort, and
only properties every correctly sorted permutation of the input shares
(the permutation itself and the pairwise key ordering with missing
values last) are asserted about the result. -/
def getFilteredDf (tbl : List Row) (q : Query) : List VRow :=
  if decide (q.sortBy ∈ DEFAULT_COLUMNS) then
    List.insertionSort (fun a b => rowLE q.sortBy a b = true) (dfBeforeSort tbl q)
  else dfBeforeSort tbl q

/-- Page count of the view (`max(1, (len(df) + PAGE_SIZE - 1) // PAGE_SIZE)`,
src/main.py line 385). -/
def totalPages (n ps : Nat) : Nat := max 1 ((n + ps - 1) / ps)

/-- Page-index normalisation of `_view_refresh` (src/main.py line 386): an
out-of-range index is reset to the first page. -/
def resetPage (i t : Nat) : Nat := if t ≤ i then 0 else i

/-- The rows of one page (`df.iloc[start:start + PAGE_SIZE]`,
src/main.py lines 387-388). -/
def pageSlice (l : List VRow) (i ps : Nat) : List VRow := (l.drop (i * ps)).take ps

/-- One refresh of the paged view (`_view_refresh`, src/main.py lines
381-391): the resulting page index and the displayed rows. -/
def viewRefreshPage (l : List VRow) (i ps : Nat) : Nat × List VRow :=
  (resetPage i (totalPages l.length ps),
    pageSlice l (resetPage i (totalPages l.length ps)) ps)

/-- The fixed page size of every list view. -/
def PAGE_SIZE : Nat := 24

/-- Refresh of the records view for a stored table, query and requested
page index. -/
def viewRefresh (tbl : List Row) (q : Query) (i : Nat) : Nat × List VRow :=
  viewRefreshPage (getFilteredDf tbl q) i PAGE_SIZE

/-- The `next_page` handler (src/main.py lines 355-360): advance only when
not already on the last page. -/
def nextPageIdx (n i ps : Nat) : Nat :=
  if i < totalPages n ps - 1 then i + 1 else i

/-- A record whose four duplicate-key fields are all empty; such records
are excluded from duplicate detection
(`dropna(subset=dup_cols, how='all')`, src/main.py line 1021, empty cells
being the missing values of the loaded frame). -/
def keyAllEmpty (r : Row) : Bool :=
  decide (r.name = "" ∧ r.email = "" ∧ r.phoneNo = "" ∧ r.aadharNo = "")

/-- The composite duplicate key `['Name', 'Email', 'PhoneNo', 'AadharNo']`
of a record. -/
def dupKey (r : Row) : String × String × String × String :=
  (r.name, r.email, r.phoneNo, r.aadharNo)

/-- The records eligible for duplicate detection. -/
def dupCandidates (tbl : List Row) : List Row :=
  tbl.filter (fun r => !keyAllEmpty r)

/-- The records marked by `duplicated(subset=dup_cols, keep=False)`: those
whose key tuple occurs at least twice among the candidates
(src/main.py line 1023). -/
def dupSelected (tbl : List Row) : List Row :=
  (dupCandidates tbl).filter
    (fun r => decide (2 ≤ (dupCandidates tbl).countP
      (fun x => decide (dupKey x = dupKey r))))

/-- Ascending comparison by the pair `(Name, SerialNo)` used by the
duplicates page (`sort_values(by=['Name', 'SerialNo'])`, default
`na_position='last'`): rows compare by Name with the missing (empty)
cell last, Name-ties by SerialNo with the missing cell last. -/
def nameSerialLE (a b : Row) : Bool :=
  if naLt a.name b.name then true
  else if naLt b.name a.name then false
  else naLe a.serialNo b.serialNo

/-- The duplicate listing of `show_duplicate_page` (src/main.py lines
1016-1023): candidate rows whose key tuple repeats, ordered by
`(Name, SerialNo)` ascending with missing (empty) cells last, the
default `na_position='last'` of the multi-key `sort_values`. -/
def findDuplicates (tbl : List Row) : List Row :=
  List.insertionSort (fun a b => nameSerialLE a b = true) (dupSelected tbl)

/-- The ages of a record subset that parse as numbers
(`pd.to_numeric(df['Age'], errors='coerce')` with missing entries
skipped by `.mean()`). -/
def parsedAges (rows : List Row) : List Int :=
  rows.filterMap (fun r => toNumeric? r.age)

/-- Mean of the parsed ages (`df['Age'].mean()`): missing when no age
parses (pandas `NaN`), otherwise the exact mean of the parsed values. -/
def avgAge (rows : List Row) : Option Rat :=
  if parsedAges rows = [] then none
  else some (mkRat (parsedAges rows).sum (parsedAges rows).length)

/-- Rendering of a non-negative rational with one decimal place,
modelling the Python format `f"{x:.1f}"` on values it represents
exactly. -/
def fmtTenthsNonneg (q : Rat) : String :=
  ⟨(natToStr ((Int.fdiv (20 * q.num + (q.den : Int)) (2 * (q.den : Int))).toNat / 10)).data ++
    '.' :: (natToStr ((Int.fdiv (20 * q.num + (q.den : Int)) (2 * (q.den : Int))).toNat % 10)).data⟩

/-- Rendering of a rational with one decimal place (`f"{x:.1f}"`). -/
def fmtTenths (q : Rat) : String :=
  if q.num < 0 then ⟨'-' :: (fmtTenthsNonneg (-q)).data⟩ else fmtTenthsNonneg q

/-- The average-age text of the overall statistics window (`_show_stats`,
src/main.py line 1000): `f"{avg_age:.1f}" if pd.notna(avg_age) else "N/A"`. -/
def showStatsAvgText (rows : List Row) : String :=
  match avgAge rows with
  | none => "N/A"
  | some q => fmtTenths q

/-- The average-age text of the selected-records statistics window
(`_share_show_stats`, src/main.py line 920): the f-string
`f"Average Age: {avg_age:.1f}"` has no missing-value guard, and Python
formats a `NaN` mean as the text `nan`. -/
def shareStatsAvgText (rows : List Row) : String :=
  match avgAge rows with
  | none => "nan"
  | some q => fmtTenths q

/-- A record holding only a serial number, all other cells empty. -/
def sampleRow (s : String) : Row := { emptyRow with serialNo := s }

/-- A record holding a serial number and an age. -/
def rowAge (s a : String) : Row := { emptyRow with serialNo := s, age := a }

/-- A record holding a serial number and the duplicate-key fields
name, email and phone (aadhar left empty). -/
def dupRow (s n e p : String) : Row :=
  { emptyRow with serialNo := s, name := n, email := e, phoneNo := p }

/-- The specification's example table with serial numbers 3, x and 7. -/
def t357 : List Row := [sampleRow "3", sampleRow "x", sampleRow "7"]

/-- A one-row table with serial number 1. -/
def t1row : List Row := [sampleRow "1"]

/-- Five view rows, for the pagination scenario. -/
def vrows5 : List VRow := (["1", "2", "3", "4", "5"].map sampleRow).map Row.toV

/-- The statistics scenario table: ages 30 and bad. -/
def t30bad : List Row := [rowAge "1" "30", rowAge "2" "bad"]

/-- A table whose only age does not parse. -/
def tBadOnly : List Row := [rowAge "1" "bad"]

/-- The default view query: no search, no gender filter, sort by serial. -/
def qSerial : Query := { search := "", genderFilter := "All", sortBy := "SerialNo" }

/-- The duplicates scenario: two records sharing the composite key
(A, a@x, 1, empty) and one unrelated record, listed out of order. -/
def tDup : List Row :=
  [dupRow "2" "A" "a@x" "1", dupRow "3" "B" "b@y" "2", dupRow "1" "A" "a@x" "1"]

/-- A table whose largest numeric serial is 10. -/
def t10 : List Row := [sampleRow "10"]

/-- Three external rows carrying their own identifiers. -/
def ext3 : List Row := [rowAge "99" "20", sampleRow "98", sampleRow ""]

/-- A record with serial 1 and a blank (missing) name. -/
def rBlankName : Row := { emptyRow with serialNo := "1" }

/-- A record with serial 2 and name A. -/
def rNameA : Row := { emptyRow with serialNo := "2", name := "A" }

/-- A two-row table listed with the blank-name record first. -/
def tBlankName : List Row := [rBlankName, rNameA]

/-- The view query sorting by the text column Name. -/
def qName : Query := { search := "", genderFilter := "All", sortBy := "Name" }

/-- Two duplicate groups, one of them with blank names, listed out of
order. -/
def tDupBlank : List Row :=
  [dupRow "1" "" "e@x" "", dupRow "2" "A" "a@x" "1",
   dupRow "3" "" "e@x" "", dupRow "4" "A" "a@x" "1"]

/-- A registration form proposing the already-used serial number 3. -/
def formDup : NewForm :=
  { serial := "3", name := "Bob", email := "b@x", gender := "Male",
    age := "40", address := "", phone := "9", occupation := "", aadhar := "",
    symptoms := "", treatment := "", startDate := "2024-01-01", endDate := "",
    satisfied := "Yes" }

-- ========================= THEOREMS =========================

theorem digitCh_isDigit {d : Nat} (h : d < 10) : (digitCh d).isDigit = true := by
  interval_cases d <;> decide

theorem digitCh_toNat {d : Nat} (h : d < 10) : (digitCh d).toNat - 48 = d := by
  interval_cases d <;> decide

theorem natDigitsAux_ne_nil {fuel n : Nat} (h : n < fuel) :
    natDigitsAux fuel n ≠ [] := by
  induction fuel generalizing n with
  | zero => omega
  | succ fuel ih =>
    by_cases h10 : n < 10
    · simp [natDigitsAux, h10]
    · simp only [natDigitsAux, if_neg h10]
      intro hcontra
      exact (List.append_ne_nil_of_right_ne_nil _ (by simp)) hcontra

theorem natDigitsAux_all_digits {fuel n : Nat} (h : n < fuel) :
    (natDigitsAux fuel n).all Char.isDigit = true := by
  induction fuel generalizing n with
  | zero => omega
  | succ fuel ih =>
    by_cases h10 : n < 10
    · simp [natDigitsAux, h10, digitCh_isDigit h10]
    · have hrec : n / 10 < fuel := by omega
      simp only [natDigitsAux, if_neg h10, List.all_append, Bool.and_eq_true]
      exact ⟨ih hrec, by simp [digitCh_isDigit (Nat.mod_lt n (by omega))]⟩

theorem natDigitsAux_foldl {fuel n : Nat} (h : n < fuel) (a : Nat) :
    (natDigitsAux fuel n).foldl pstep a =
      a * 10 ^ (natDigitsAux fuel n).length + n := by
  induction fuel generalizing n a with
  | zero => omega
  | succ fuel ih =>
    by_cases h10 : n < 10
    · simp [natDigitsAux, h10, pstep, digitCh_toNat h10]
    · have hrec : n / 10 < fuel := by omega
      simp only [natDigitsAux, if_neg h10, List.foldl_append, List.length_append,
        List.foldl_cons, List.foldl_nil, List.length_cons, List.length_nil]
      rw [ih hrec a]
      have hmod : (digitCh (n % 10)).toNat - 48 = n % 10 :=
        digitCh_toNat (Nat.mod_lt _ (by omega))
      simp only [pstep, hmod]
      have hdm : 10 * (n / 10) + n % 10 = n := Nat.div_add_mod n 10
      have hpow : 10 ^ (0 + 1) = 10 := by norm_num
      ring_nf
      omega

theorem parseNatDigits_natToStr (n : Nat) : parseNatDigits (natToStr n).data = n := by
  have h := natDigitsAux_foldl (show n < n + 1 by omega) 0
  simpa [parseNatDigits, natToStr] using h

theorem digitsVal?_natToStr (n : Nat) : digitsVal? (natToStr n).data = some n := by
  have h1 : natDigitsAux (n + 1) n ≠ [] := natDigitsAux_ne_nil (by omega)
  have h2 := natDigitsAux_all_digits (show n < n + 1 by omega)
  have h3 := parseNatDigits_natToStr n
  simp only [natToStr, digitsVal?] at h3 ⊢
  rw [if_pos]
  · exact congrArg some h3
  · simp [List.isEmpty_iff, h1, h2]

theorem isDigit_ne_sign {c : Char} (h : c.isDigit = true) : c ≠ '-' ∧ c ≠ '+' := by
  constructor <;> · intro hc; subst hc; simp at h

theorem toNumeric?_natToStr (n : Nat) : toNumeric? (natToStr n) = some (n : Int) := by
  obtain ⟨c, rest, hd⟩ : ∃ c rest, (natToStr n).data = c :: rest := by
    cases h : (natToStr n).data with
    | nil => exact absurd h (natDigitsAux_ne_nil (by omega))
    | cons c rest => exact ⟨c, rest, rfl⟩
  have hdig : c.isDigit = true := by
    have h2 := natDigitsAux_all_digits (show n < n + 1 by omega)
    have : ((c :: rest).all Char.isDigit) = true := by
      rw [← hd]; exact h2
    simp only [List.all_cons, Bool.and_eq_true] at this
    exact this.1
  have hs := isDigit_ne_sign hdig
  have hval : digitsVal? (c :: rest) = some n := by
    rw [← hd]; exact digitsVal?_natToStr n
  simp [toNumeric?, hd, if_neg hs.1, if_neg hs.2, hval]

theorem toNumeric?_intToStr (i : Int) : toNumeric? (intToStr i) = some i := by
  by_cases hneg : i < 0
  · have htn : ((-i).toNat : Int) = -i := Int.toNat_of_nonneg (by omega)
    simp only [intToStr, if_pos hneg]
    have hval : digitsVal? (natToStr (-i).toNat).data = some (-i).toNat :=
      digitsVal?_natToStr _
    simp only [toNumeric?, hval]
    simp [htn]
  · have htn : (i.toNat : Int) = i := Int.toNat_of_nonneg (by omega)
    simp only [intToStr, if_neg hneg]
    rw [toNumeric?_natToStr]
    exact congrArg some htn

theorem intToStr_injective {a b : Int} (h : intToStr a = intToStr b) : a = b := by
  have ha := toNumeric?_intToStr a
  have hb := toNumeric?_intToStr b
  rw [h, hb] at ha
  exact Option.some.inj ha.symm

theorem char_toNat_inj {a b : Char} (h : a.toNat = b.toNat) : a = b := by
  have hv : a.val = b.val := UInt32.toNat.inj h
  exact Char.eq_of_val_eq hv

theorem lexLt_irrefl (l : List Char) : lexLt l l = false := by
  induction l with
  | nil => rfl
  | cons a as ih => simp [lexLt, ih]

theorem lexLt_trans {l₁ l₂ l₃ : List Char} (h₁ : lexLt l₁ l₂ = true)
    (h₂ : lexLt l₂ l₃ = true) : lexLt l₁ l₃ = true := by
  induction l₁ generalizing l₂ l₃ with
  | nil =>
    cases l₂ with
    | nil => simp [lexLt] at h₁
    | cons b bs =>
      cases l₃ with
      | nil => simp [lexLt] at h₂
      | cons c cs => simp [lexLt]
  | cons a as ih =>
    cases l₂ with
    | nil => simp [lexLt] at h₁
    | cons b bs =>
      cases l₃ with
      | nil => simp [lexLt] at h₂
      | cons c cs =>
        simp only [lexLt, Bool.or_eq_true, Bool.and_eq_true,
          decide_eq_true_eq] at h₁ h₂ ⊢
        rcases h₁ with h₁ | ⟨hab, h₁⟩
        · rcases h₂ with h₂ | ⟨hbc, h₂⟩
          · exact Or.inl (by omega)
          · exact Or.inl (by omega)
        · rcases h₂ with h₂ | ⟨hbc, h₂⟩
          · exact Or.inl (by omega)
          · exact Or.inr ⟨by omega, ih h₁ h₂⟩

theorem lexLt_trichotomy (l₁ l₂ : List Char) :
    lexLt l₁ l₂ = true ∨ lexLt l₂ l₁ = true ∨ l₁ = l₂ := by
  induction l₁ generalizing l₂ with
  | nil =>
    cases l₂ with
    | nil => exact Or.inr (Or.inr rfl)
    | cons b bs => exact Or.inl (by simp [lexLt])
  | cons a as ih =>
    cases l₂ with
    | nil => exact Or.inr (Or.inl (by simp [lexLt]))
    | cons b bs =>
      rcases Nat.lt_trichotomy a.toNat b.toNat with h | h | h
      · exact Or.inl (by simp [lexLt, h])
      · have hab : a = b := char_toNat_inj h
        subst hab
        rcases ih bs with h' | h' | h'
        · exact Or.inl (by simp [lexLt, h'])
        · exact Or.inr (Or.inl (by simp [lexLt, h']))
        · exact Or.inr (Or.inr (by rw [h']))
      · exact Or.inr (Or.inl (by simp [lexLt, h]))

theorem lexLt_asymm {l₁ l₂ : List Char} (h : lexLt l₁ l₂ = true) :
    lexLt l₂ l₁ = false := by
  by_contra hcon
  have h2 : lexLt l₂ l₁ = true := by
    cases hb : lexLt l₂ l₁ with
    | false => exact absurd hb hcon
    | true => rfl
  have := lexLt_trans h h2
  rw [lexLt_irrefl] at this
  exact Bool.false_ne_true this

theorem lexLe_trans {l₁ l₂ l₃ : List Char} (h₁ : lexLe l₁ l₂ = true)
    (h₂ : lexLe l₂ l₃ = true) : lexLe l₁ l₃ = true := by
  simp only [lexLe, Bool.or_eq_true, decide_eq_true_eq] at h₁ h₂ ⊢
  rcases h₁ with h₁ | h₁
  · rcases h₂ with h₂ | h₂
    · exact Or.inl (lexLt_trans h₁ h₂)
    · subst h₂; exact Or.inl h₁
  · subst h₁; exact h₂

theorem lexLe_total (l₁ l₂ : List Char) :
    lexLe l₁ l₂ = true ∨ lexLe l₂ l₁ = true := by
  simp only [lexLe, Bool.or_eq_true, decide_eq_true_eq]
  rcases lexLt_trichotomy l₁ l₂ with h | h | h
  · exact Or.inl (Or.inl h)
  · exact Or.inr (Or.inl h)
  · exact Or.inl (Or.inr h)

theorem lexLe_antisymm {l₁ l₂ : List Char} (h₁ : lexLe l₁ l₂ = true)
    (h₂ : lexLe l₂ l₁ = true) : l₁ = l₂ := by
  simp only [lexLe, Bool.or_eq_true, decide_eq_true_eq] at h₁ h₂
  rcases h₁ with h₁ | h₁
  · rcases h₂ with h₂ | h₂
    · exact absurd h₂ (by simp [lexLt_asymm h₁])
    · exact h₂.symm
  · exact h₁

theorem strLe_trans {a b c : String} (h₁ : strLe a b = true)
    (h₂ : strLe b c = true) : strLe a c = true := lexLe_trans h₁ h₂

theorem strLe_total (a b : String) : strLe a b = true ∨ strLe b a = true :=
  lexLe_total a.data b.data

theorem strLe_antisymm {a b : String} (h₁ : strLe a b = true)
    (h₂ : strLe b a = true) : a = b := by
  cases a with
  | mk da =>
    cases b with
    | mk db => exact congrArg String.mk (lexLe_antisymm h₁ h₂)

theorem strLe_refl (a : String) : strLe a a = true := by
  simp [strLe, lexLe]

theorem strLt_irrefl (a : String) : strLt a a = false := lexLt_irrefl a.data

theorem strLt_trans {a b c : String} (h₁ : strLt a b = true)
    (h₂ : strLt b c = true) : strLt a c = true := lexLt_trans h₁ h₂

theorem strLt_trichotomy (a b : String) :
    strLt a b = true ∨ strLt b a = true ∨ a = b := by
  rcases lexLt_trichotomy a.data b.data with h | h | h
  · exact Or.inl h
  · exact Or.inr (Or.inl h)
  · refine Or.inr (Or.inr ?_)
    cases a with
    | mk da =>
      cases b with
      | mk db => exact congrArg String.mk h

theorem naLt_irrefl (a : String) : naLt a a = false := by
  by_cases h : a = ""
  · simp [naLt, h]
  · simp [naLt, h, strLt_irrefl]

theorem naLt_trans {a b c : String} (h₁ : naLt a b = true)
    (h₂ : naLt b c = true) : naLt a c = true := by
  by_cases ha : a = ""
  · simp [naLt, ha] at h₁
  by_cases hb : b = ""
  · simp [naLt, hb] at h₂
  by_cases hc : c = ""
  · simp [naLt, ha, hc]
  · simp only [naLt, if_neg ha, if_neg hb, if_neg hc] at h₁ h₂ ⊢
    exact strLt_trans h₁ h₂

theorem naLt_trichotomy (a b : String) :
    naLt a b = true ∨ naLt b a = true ∨ a = b := by
  by_cases ha : a = ""
  · by_cases hb : b = ""
    · exact Or.inr (Or.inr (ha.trans hb.symm))
    · exact Or.inr (Or.inl (by simp [naLt, hb, ha]))
  · by_cases hb : b = ""
    · exact Or.inl (by simp [naLt, ha, hb])
    · rcases strLt_trichotomy a b with h | h | h
      · exact Or.inl (by simp [naLt, ha, hb, h])
      · exact Or.inr (Or.inl (by simp [naLt, hb, ha, h]))
      · exact Or.inr (Or.inr h)

theorem naLe_refl (a : String) : naLe a a = true := by
  by_cases h : a = ""
  · simp [naLe, h]
  · simp [naLe, h, strLe_refl]

theorem naLe_trans {a b c : String} (h₁ : naLe a b = true)
    (h₂ : naLe b c = true) : naLe a c = true := by
  by_cases ha : a = ""
  · simp only [naLe, if_pos ha] at h₁
    have hb : b = "" := of_decide_eq_true h₁
    simp only [naLe, if_pos hb] at h₂
    have hc : c = "" := of_decide_eq_true h₂
    simp [naLe, ha, hc]
  · by_cases hb : b = ""
    · simp only [naLe, if_pos hb] at h₂
      have hc : c = "" := of_decide_eq_true h₂
      simp [naLe, ha, hc]
    · by_cases hc : c = ""
      · simp [naLe, ha, hc]
      · simp only [naLe, if_neg ha, if_neg hb, if_neg hc] at h₁ h₂ ⊢
        exact strLe_trans h₁ h₂

theorem naLe_total (a b : String) : naLe a b = true ∨ naLe b a = true := by
  by_cases ha : a = ""
  · by_cases hb : b = ""
    · exact Or.inl (by simp [naLe, ha, hb])
    · exact Or.inr (by simp [naLe, hb, ha])
  · by_cases hb : b = ""
    · exact Or.inl (by simp [naLe, ha, hb])
    · rcases strLe_total a b with h | h
      · exact Or.inl (by simp [naLe, ha, hb, h])
      · exact Or.inr (by simp [naLe, hb, ha, h])

theorem dcellLE_trans {a b c : DCell} (h₁ : dcellLE a b = true)
    (h₂ : dcellLE b c = true) : dcellLE a c = true := by
  cases a with
  | s sa =>
    cases b with
    | s sb =>
      cases c with
      | s sc => exact naLe_trans h₁ h₂
      | n nc => simp [dcellLE] at h₂
    | n nb => simp [dcellLE] at h₁
  | n na =>
    cases c with
    | s sc =>
      cases b with
      | s sb => simp [dcellLE]
      | n nb => simp [dcellLE]
    | n nc =>
      cases b with
      | s sb => simp [dcellLE] at h₂
      | n nb =>
        cases na with
        | none =>
          cases nb with
          | none =>
            cases nc with
            | none => simp [dcellLE]
            | some z => simp [dcellLE] at h₂
          | some y => simp [dcellLE] at h₁
        | some x =>
          cases nc with
          | none => simp [dcellLE]
          | some z =>
            cases nb with
            | none => simp [dcellLE] at h₂
            | some y =>
              simp only [dcellLE, decide_eq_true_eq] at h₁ h₂ ⊢
              omega

theorem dcellLE_total (a b : DCell) : (dcellLE a b || dcellLE b a) = true := by
  cases a with
  | s sa =>
    cases b with
    | s sb =>
      rcases naLe_total sa sb with h | h <;> simp [dcellLE, h]
    | n nb => simp [dcellLE]
  | n na =>
    cases b with
    | s sb => simp [dcellLE]
    | n nb =>
      cases na with
      | none =>
        cases nb with
        | none => simp [dcellLE]
        | some y => simp [dcellLE]
      | some x =>
        cases nb with
        | none => simp [dcellLE]
        | some y =>
          simp only [dcellLE, Bool.or_eq_true, decide_eq_true_eq]
          omega

theorem dcellLE_refl (a : DCell) : dcellLE a a = true := by
  cases a with
  | s v => exact naLe_refl v
  | n o => cases o with
    | none => simp [dcellLE]
    | some x => simp [dcellLE]

theorem rowLE_trans (c : String) {a b d : VRow} (h₁ : rowLE c a b = true)
    (h₂ : rowLE c b d = true) : rowLE c a d = true := dcellLE_trans h₁ h₂

theorem rowLE_total (c : String) (a b : VRow) :
    (rowLE c a b || rowLE c b a) = true := dcellLE_total _ _

theorem nameSerialLE_iff {a b : Row} :
    nameSerialLE a b = true ↔
      naLt a.name b.name = true ∨
        (a.name = b.name ∧ naLe a.serialNo b.serialNo = true) := by
  by_cases h1 : naLt a.name b.name = true
  · simp [nameSerialLE, h1]
  · have h1f : naLt a.name b.name = false := Bool.eq_false_iff.mpr h1
    by_cases h2 : naLt b.name a.name = true
    · have hne : a.name ≠ b.name := by
        intro he
        rw [he, naLt_irrefl] at h2
        exact Bool.false_ne_true h2
      have hv : nameSerialLE a b = false := by
        simp [nameSerialLE, h1f, h2]
      rw [hv]
      constructor
      · intro hcontra
        exact absurd hcontra Bool.false_ne_true
      · rintro (h | ⟨he, _⟩)
        · exact absurd h h1
        · exact absurd he hne
    · have h2f : naLt b.name a.name = false := Bool.eq_false_iff.mpr h2
      have he : a.name = b.name := by
        rcases naLt_trichotomy a.name b.name with h | h | h
        · exact absurd h h1
        · exact absurd h h2
        · exact h
      have hv : nameSerialLE a b = naLe a.serialNo b.serialNo := by
        simp [nameSerialLE, h1f, h2f]
      rw [hv]
      constructor
      · intro h
        exact Or.inr ⟨he, h⟩
      · rintro (h | ⟨_, h⟩)
        · exact absurd h h1
        · exact h

theorem nameSerialLE_trans {a b c : Row} (h₁ : nameSerialLE a b = true)
    (h₂ : nameSerialLE b c = true) : nameSerialLE a c = true := by
  rw [nameSerialLE_iff] at h₁ h₂ ⊢
  rcases h₁ with h₁ | ⟨he₁, hs₁⟩
  · rcases h₂ with h₂ | ⟨he₂, hs₂⟩
    · exact Or.inl (naLt_trans h₁ h₂)
    · exact Or.inl (he₂ ▸ h₁)
  · rcases h₂ with h₂ | ⟨he₂, hs₂⟩
    · exact Or.inl (he₁ ▸ h₂)
    · exact Or.inr ⟨he₁.trans he₂, naLe_trans hs₁ hs₂⟩

theorem nameSerialLE_total (a b : Row) :
    (nameSerialLE a b || nameSerialLE b a) = true := by
  rw [Bool.or_eq_true, nameSerialLE_iff, nameSerialLE_iff]
  rcases naLt_trichotomy a.name b.name with h | h | h
  · exact Or.inl (Or.inl h)
  · exact Or.inr (Or.inl h)
  · rcases naLe_total a.serialNo b.serialNo with hs | hs
    · exact Or.inl (Or.inr ⟨h, hs⟩)
    · exact Or.inr (Or.inr ⟨h.symm, hs⟩)

theorem nodup_set {α : Type} {l : List α} {i : Nat} {a : α} (h : l.Nodup)
    (ha : a ∉ l ∨ l[i]? = some a) : (l.set i a).Nodup := by
  induction l generalizing i with
  | nil => simp
  | cons x xs ih =>
    cases i with
    | zero =>
      rcases ha with ha | ha
      · simp only [List.set_cons_zero, List.nodup_cons] at h ⊢
        exact ⟨fun hmem => ha (List.mem_cons_of_mem _ hmem), h.2⟩
      · have hax : x = a := by simpa using ha
        subst hax
        simpa using h
    | succ i =>
      simp only [List.set_cons_succ, List.nodup_cons] at h ⊢
      refine ⟨?_, ih h.2 ?_⟩
      · intro hmem
        rcases List.mem_or_eq_of_mem_set hmem with hx | hx
        · exact h.1 hx
        · subst hx
          rcases ha with ha | ha
          · exact ha (List.mem_cons_self _ _)
          · have hget : xs[i]? = some x := by simpa using ha
            exact h.1 (List.getElem?_mem hget)
      · rcases ha with ha | ha
        · exact Or.inl (fun hmem => ha (List.mem_cons_of_mem _ hmem))
        · exact Or.inr (by simpa using ha)

theorem length_filter_not_add {α : Type} (p : α → Bool) (l : List α) :
    (l.filter p).length + (l.filter (fun a => !p a)).length = l.length := by
  induction l with
  | nil => simp
  | cons x xs ih =>
    by_cases hx : p x = true
    · simp [List.filter_cons, hx, ih]
      omega
    · have hx' : p x = false := Bool.eq_false_iff.mpr hx
      simp [List.filter_cons, hx', ih]
      omega

theorem pageSlices_flatten_take (l : List VRow) (ps : Nat) (k : Nat) :
    ((List.range k).map (fun j => pageSlice l j ps)).flatten = l.take (k * ps) := by
  induction k with
  | zero => simp
  | succ k ih =>
    rw [List.range_succ, List.map_append, List.flatten_append, ih]
    simp only [List.map_cons, List.map_nil, List.flatten_cons, List.flatten_nil,
      List.append_nil, pageSlice]
    rw [← List.take_add, Nat.succ_mul]

theorem le_totalPages_mul {n ps : Nat} (h : 0 < ps) : n ≤ totalPages n ps * ps := by
  rcases Nat.eq_zero_or_pos n with hn | hn
  · subst hn
    exact Nat.zero_le _
  · have h1 := Nat.div_add_mod (n + ps - 1) ps
    have h2 : (n + ps - 1) % ps < ps := Nat.mod_lt _ h
    have hd1 : 1 ≤ (n + ps - 1) / ps := by
      rw [Nat.le_div_iff_mul_le h]
      omega
    simp only [totalPages]
    rw [Nat.max_eq_right hd1, Nat.mul_comm]
    omega

theorem pageSlices_flatten {l : List VRow} {ps : Nat} (h : 0 < ps) :
    ((List.range (totalPages l.length ps)).map (fun j => pageSlice l j ps)).flatten
      = l := by
  rw [pageSlices_flatten_take]
  exact List.take_of_length_le (le_totalPages_mul h)

theorem foldl_max_le_mem (x : Int) (xs : List Int) :
    ∀ v ∈ x :: xs, v ≤ xs.foldl max x := by
  induction xs generalizing x with
  | nil =>
    intro v hv
    simp only [List.mem_cons, List.not_mem_nil, or_false] at hv
    subst hv
    simp
  | cons y ys ih =>
    intro v hv
    simp only [List.foldl_cons]
    have hm := ih (max x y)
    rcases List.mem_cons.mp hv with hv | hv
    · subst hv
      exact le_trans (le_max_left v y) (hm _ (List.mem_cons_self _ _))
    · rcases List.mem_cons.mp hv with hv | hv
      · subst hv
        exact le_trans (le_max_right x v) (hm _ (List.mem_cons_self _ _))
      · exact hm _ (List.mem_cons_of_mem _ hv)

theorem foldl_max_mem (x : Int) (xs : List Int) : xs.foldl max x ∈ x :: xs := by
  induction xs generalizing x with
  | nil => simp
  | cons y ys ih =>
    simp only [List.foldl_cons]
    have h := ih (max x y)
    rcases List.mem_cons.mp h with h | h
    · rw [h]
      rcases max_choice x y with hm | hm <;> rw [hm]
      · exact List.mem_cons_self _ _
      · exact List.mem_cons_of_mem _ (List.mem_cons_self _ _)
    · exact List.mem_cons_of_mem _ (List.mem_cons_of_mem _ h)

/-- C5: `NextSerial` returns `max(numeric SerialNo values) + 1`, and `1`
when the table is empty or no serial parses; non-numeric serials are
ignored and never cause failure (they simply drop out of
`numericSerials`). -/
theorem spec_c5 (tbl : List Row) :
    (numericSerials tbl = [] → nextSerial tbl = 1) ∧
    (∀ v ∈ numericSerials tbl, v < nextSerial tbl) ∧
    (numericSerials tbl ≠ [] → nextSerial tbl - 1 ∈ numericSerials tbl) := by
  refine ⟨fun h => by simp [nextSerial, h], ?_, ?_⟩
  · intro v hv
    cases hns : numericSerials tbl with
    | nil => rw [hns] at hv; simp at hv
    | cons x xs =>
      rw [hns] at hv
      have hle := foldl_max_le_mem x xs v hv
      simp only [nextSerial, hns]
      omega
  · intro h
    cases hns : numericSerials tbl with
    | nil => exact absurd hns h
    | cons x xs =>
      simp only [nextSerial, hns, Int.add_sub_cancel]
      exact foldl_max_mem x xs

/-- Witness for C5: on serial numbers 3, x and 7 the next serial is 8, and
8 - 1 is indeed one of the numeric serials. -/
theorem spec_c5_w : nextSerial t357 = 8 ∧ nextSerial t357 - 1 ∈ numericSerials t357 :=
  ⟨by decide, (spec_c5 t357).2.2 (by decide)⟩

theorem one_le_totalPages (n ps : Nat) : 1 ≤ totalPages n ps := le_max_left 1 _

/-- C4 counterexample: over five rows with page size 2 there are three
pages, yet requesting page index 5 yields page 0, the first page, not the
last valid page 2; and over zero rows the code computes one page where
`ceil(0 / pageSize)` is zero. -/
theorem spec_c4_cx :
    totalPages vrows5.length 2 = 3 ∧
    (viewRefreshPage vrows5 5 2).1 = 0 ∧
    (viewRefreshPage vrows5 5 2).1 ≠ totalPages vrows5.length 2 - 1 ∧
    (viewRefreshPage vrows5 5 2).2 = pageSlice vrows5 0 2 ∧
    (pageSlice vrows5 0 2).length = 2 ∧
    totalPages 0 2 = 1 ∧ (0 + 2 - 1) / 2 = 0 := by decide

/-- C4 amended: the view computes `totalPages = max(1, ceil(n / pageSize))`;
the page slices partition the filtered rows; an in-range page index is
kept and served its slice; an out-of-range page index is reset to page 0
(the first page, not the last); and the Next control never advances past
the last page. -/
theorem spec_c4_amended (l : List VRow) (i ps : Nat) (hps : 0 < ps) :
    ((List.range (totalPages l.length ps)).map (fun j => pageSlice l j ps)).flatten
      = l ∧
    (i < totalPages l.length ps → viewRefreshPage l i ps = (i, pageSlice l i ps)) ∧
    (totalPages l.length ps ≤ i → viewRefreshPage l i ps = (0, pageSlice l 0 ps)) ∧
    (i < totalPages l.length ps →
      nextPageIdx l.length i ps < totalPages l.length ps) := by
  refine ⟨pageSlices_flatten hps, ?_, ?_, ?_⟩
  · intro h
    simp only [viewRefreshPage, resetPage, if_neg (Nat.not_le.mpr h)]
  · intro h
    simp only [viewRefreshPage, resetPage, if_pos h]
  · intro h
    have h1 := one_le_totalPages l.length ps
    by_cases hlt : i < totalPages l.length ps - 1
    · simp only [nextPageIdx, if_pos hlt]
      omega
    · simp only [nextPageIdx, if_neg hlt]
      omega

/-- Witness for the amended C4 over the five-row page-size-2 scenario:
pages of sizes 2, 2, 1 partition the rows, page 1 is served as requested,
page 5 resets to page 0, and Next from page 2 stays on the last page. -/
theorem spec_c4_amended_w :
    ((List.range (totalPages vrows5.length 2)).map
        (fun j => pageSlice vrows5 j 2)).flatten = vrows5 ∧
    viewRefreshPage vrows5 1 2 = (1, pageSlice vrows5 1 2) ∧
    viewRefreshPage vrows5 5 2 = (0, pageSlice vrows5 0 2) ∧
    nextPageIdx vrows5.length 2 2 < totalPages vrows5.length 2 :=
  ⟨(spec_c4_amended vrows5 1 2 (by decide)).1,
   (spec_c4_amended vrows5 1 2 (by decide)).2.1 (by decide),
   (spec_c4_amended vrows5 5 2 (by decide)).2.2.1 (by decide),
   (spec_c4_amended vrows5 2 2 (by decide)).2.2.2 (by decide)⟩

/-- C3 counterexample: deleting with the identifier set containing the
existing serial 1 and the absent serial 2 from a one-row table removes
exactly one row but reports two records deleted, so the reported count is
the size of the requested set, not the count actually removed. -/
theorem spec_c3_cx :
    (deleteChecked t1row ["1", "2"]).1 = [] ∧
    (deleteChecked t1row ["1", "2"]).2 = 2 ∧
    t1row.length - (deleteChecked t1row ["1", "2"]).1.length = 1 ∧
    (deleteChecked t1row ["1", "2"]).2 ≠
      t1row.length - (deleteChecked t1row ["1", "2"]).1.length := by decide

/-- C3 amended: `Delete` removes exactly the rows whose serial is in the
set, raises no error when some identifiers are absent, and reports the
size of the requested set; the report equals the count actually removed
exactly when every requested identifier is present (and serials and the
request are duplicate-free). -/
theorem spec_c3_amended (tbl : List Row) (ids : List String) (hne : ids ≠ []) :
    (deleteChecked tbl ids).1 = tbl.filter (fun r => decide (r.serialNo ∉ ids)) ∧
    (∀ r ∈ (deleteChecked tbl ids).1, r ∈ tbl ∧ r.serialNo ∉ ids) ∧
    (∀ r ∈ tbl, r.serialNo ∉ ids → r ∈ (deleteChecked tbl ids).1) ∧
    (deleteChecked tbl ids).2 = ids.length ∧
    ((serials tbl).Nodup → ids.Nodup → (∀ s ∈ ids, s ∈ serials tbl) →
      tbl.length = (deleteChecked tbl ids).1.length + ids.length) := by
  have hemp : ids.isEmpty = false := by
    cases ids with
    | nil => exact absurd rfl hne
    | cons a l => rfl
  have h1 : (deleteChecked tbl ids).1 = tbl.filter (fun r => decide (r.serialNo ∉ ids)) := by
    simp [deleteChecked, hemp]
  refine ⟨h1, ?_, ?_, by simp [deleteChecked, hemp], ?_⟩
  · intro r hr
    rw [h1] at hr
    have := List.mem_filter.mp hr
    exact ⟨this.1, by simpa using this.2⟩
  · intro r hr hnot
    rw [h1]
    exact List.mem_filter.mpr ⟨hr, by simpa using hnot⟩
  · intro hnd hidnd hsub
    rw [h1]
    have hsplit := length_filter_not_add (fun r => decide (r.serialNo ∉ ids)) tbl
    have hcompl : (tbl.filter (fun r => !(decide (r.serialNo ∉ ids)))) =
        tbl.filter (fun r => decide (r.serialNo ∈ ids)) := by
      simp only [decide_not, Bool.not_not]
    rw [hcompl] at hsplit
    have hmapeq : (tbl.filter (fun r => decide (r.serialNo ∈ ids))).map Row.serialNo
        = (serials tbl).filter (fun s => decide (s ∈ ids)) := by
      rw [serials, List.filter_map]
      rfl
    have hperm : ((serials tbl).filter (fun s => decide (s ∈ ids))).Perm ids := by
      rw [List.perm_ext_iff_of_nodup (hnd.filter _) hidnd]
      intro a
      constructor
      · intro ha
        have := List.mem_filter.mp ha
        simpa using this.2
      · intro ha
        exact List.mem_filter.mpr ⟨hsub a ha, by simpa using ha⟩
    have hlen : (tbl.filter (fun r => decide (r.serialNo ∈ ids))).length = ids.length := by
      have hl1 : (tbl.filter (fun r => decide (r.serialNo ∈ ids))).length
          = ((serials tbl).filter (fun s => decide (s ∈ ids))).length := by
        rw [← hmapeq, List.length_map]
      rw [hl1, hperm.length_eq]
    omega

/-- Witness for the amended C3: deleting serials 3 and 9 from the example
table reports two deletions; deleting just serial 3 reports one, which
matches the count actually removed. -/
theorem spec_c3_amended_w :
    (deleteChecked t357 ["3", "9"]).1 = [sampleRow "x", sampleRow "7"] ∧
    (deleteChecked t357 ["3", "9"]).2 = 2 ∧
    (deleteChecked t357 ["3"]).2 = 1 ∧
    t357.length = (deleteChecked t357 ["3"]).1.length + 1 :=
  ⟨by decide,
   (spec_c3_amended t357 ["3", "9"] (by decide)).2.2.2.1,
   (spec_c3_amended t357 ["3"] (by decide)).2.2.2.1,
   (spec_c3_amended t357 ["3"] (by decide)).2.2.2.2 (by decide) (by decide)
     (by decide)⟩

/-- C9 (code bug): the mean age is the mean of the parsed ages with the
unparsable entries excluded (ages 30 and bad give mean 30 over a total of
two records), and the overall-statistics window does print `N/A` when no
age parses; but the share-selected statistics window formats the missing
mean without a guard and prints `nan` instead of the specified `N/A`. -/
theorem spec_c9 :
    avgAge t30bad = some 30 ∧
    t30bad.length = 2 ∧
    shareStatsAvgText t30bad = "30.0" ∧
    avgAge tBadOnly = none ∧
    showStatsAvgText tBadOnly = "N/A" ∧
    shareStatsAvgText tBadOnly = "nan" ∧
    shareStatsAvgText tBadOnly ≠ "N/A" := by decide

theorem maxExistingSerial_ge (tbl : List Row) :
    ∀ v ∈ numericSerials tbl, v ≤ maxExistingSerial tbl := by
  intro v hv
  cases hns : numericSerials tbl with
  | nil => rw [hns] at hv; simp at hv
  | cons x xs =>
    rw [hns] at hv
    simp only [maxExistingSerial, hns]
    exact foldl_max_le_mem x xs v hv

theorem mem_numericSerials {tbl : List Row} {s : String} {v : Int}
    (hs : s ∈ serials tbl) (hv : toNumeric? s = some v) :
    v ∈ numericSerials tbl := by
  simp only [serials, List.mem_map] at hs
  obtain ⟨r, hr, hrs⟩ := hs
  simp only [numericSerials, List.mem_filterMap]
  exact ⟨r, hr, by rw [hrs]; exact hv⟩

theorem importSerials (tbl ext : List Row) :
    serials (importDb tbl ext).1 = serials tbl ++
      (List.range ext.length).map
        (fun i : Nat => intToStr (maxExistingSerial tbl + 1 + (i : Int))) := by
  simp only [importDb, serials, List.map_append]
  congr 1
  rw [List.map_map, ← List.enum_map_fst ext, List.map_map]
  rfl

theorem import_fresh (tbl : List Row) (n : Nat) :
    ∀ s ∈ serials tbl,
      s ∉ (List.range n).map
        (fun i : Nat => intToStr (maxExistingSerial tbl + 1 + (i : Int))) := by
  intro s hs hmem
  simp only [List.mem_map, List.mem_range] at hmem
  obtain ⟨i, hi, hsi⟩ := hmem
  have hv : toNumeric? s = some (maxExistingSerial tbl + 1 + i) := by
    rw [← hsi]
    exact toNumeric?_intToStr _
  have := maxExistingSerial_ge tbl _ (mem_numericSerials hs hv)
  omega

/-- C6: `Import` appends the external rows with a fresh contiguous block
of identifiers `max + 1 .. max + n` (textual after the reload) regardless
of the identifiers the external rows carry, reports `n` records imported,
never collides with an existing serial, and keeps every other column of
the imported rows. -/
theorem spec_c6 (tbl ext : List Row) :
    serials (importDb tbl ext).1 = serials tbl ++
      (List.range ext.length).map
        (fun i : Nat => intToStr (maxExistingSerial tbl + 1 + (i : Int))) ∧
    (importDb tbl ext).2 = ext.length ∧
    (importDb tbl ext).1.length = tbl.length + ext.length ∧
    (∀ v ∈ numericSerials tbl, v ≤ maxExistingSerial tbl) ∧
    (numericSerials tbl ≠ [] → maxExistingSerial tbl ∈ numericSerials tbl) ∧
    (∀ s ∈ serials tbl,
      s ∉ (List.range ext.length).map
        (fun i : Nat => intToStr (maxExistingSerial tbl + 1 + (i : Int)))) ∧
    ((importDb tbl ext).1.drop tbl.length).map blankSerial = ext.map blankSerial := by
  refine ⟨importSerials tbl ext, rfl, ?_, maxExistingSerial_ge tbl, ?_,
    import_fresh tbl ext.length, ?_⟩
  · simp [importDb]
  · intro h
    cases hns : numericSerials tbl with
    | nil => exact absurd hns h
    | cons x xs =>
      simp only [maxExistingSerial, hns]
      exact foldl_max_mem x xs
  · have hdrop : (importDb tbl ext).1.drop tbl.length
        = ext.enum.map (assignSerial (maxExistingSerial tbl)) := by
      simp only [importDb]
      exact List.drop_left _ _
    rw [hdrop, List.map_map]
    have hsnd : blankSerial ∘ assignSerial (maxExistingSerial tbl)
        = blankSerial ∘ Prod.snd := rfl
    rw [hsnd, ← List.map_map, List.enum_map_snd]

/-- Witness for C6: importing three external rows into a table whose
largest numeric serial is 10 yields the new serials 11, 12 and 13, a
reported count of 3, and the imported rows keep their other columns. -/
theorem spec_c6_w :
    serials (importDb t10 ext3).1 = ["10", "11", "12", "13"] ∧
    (importDb t10 ext3).2 = 3 ∧
    maxExistingSerial t10 ∈ numericSerials t10 ∧
    ((importDb t10 ext3).1.drop t10.length).map blankSerial
      = ext3.map blankSerial :=
  ⟨by decide, (spec_c6 t10 ext3).2.1,
   (spec_c6 t10 ext3).2.2.2.2.1 (by decide),
   (spec_c6 t10 ext3).2.2.2.2.2.2⟩

/-- C2: a Create request that passes the field validations but whose
proposed serial number is already present in the table as text
(`str(int(serial)) in df['SerialNo'].values`) fails with the
duplicate-serial conflict error and leaves the table unchanged. -/
theorem spec_c2 (tbl : List Row) (f : NewForm) (k : Int)
    (h1 : pyStrip f.name ≠ "") (h2 : pyStrip f.email ≠ "")
    (h3 : pyStrip f.gender ≠ "") (h4 : pyStrip f.age ≠ "")
    (h5 : pyStrip f.phone ≠ "")
    (ha : ∃ a, toNumeric? f.age = some a)
    (hk : toNumeric? f.serial = some k)
    (hmem : intToStr k ∈ serials tbl) :
    createPatient tbl f = Except.error (CreateError.serialExists k) ∧
    applyOp tbl (Op.create f) = tbl ∧
    (applyOp tbl (Op.create f)).length = tbl.length := by
  obtain ⟨a, ha⟩ := ha
  have hcp : createPatient tbl f = Except.error (CreateError.serialExists k) := by
    simp only [createPatient, if_neg h1, if_neg h2, if_neg h3, if_neg h4,
      if_neg h5, ha, hk, if_pos hmem]
  refine ⟨hcp, ?_, ?_⟩ <;> simp [applyOp, hcp]

/-- Witness for C2: registering with the already-used serial 3 on the
example table is rejected with the conflict error and the table is
unchanged. -/
theorem spec_c2_w :
    createPatient t357 formDup = Except.error (CreateError.serialExists 3) ∧
    applyOp t357 (Op.create formDup) = t357 ∧
    (applyOp t357 (Op.create formDup)).length = t357.length :=
  spec_c2 t357 formDup 3 (by decide) (by decide) (by decide) (by decide)
    (by decide) ⟨40, by decide⟩ (by decide) (by decide)

theorem createPatient_ok {tbl : List Row} {f : NewForm} {t : List Row}
    (h : createPatient tbl f = Except.ok t) :
    ∃ k, toNumeric? f.serial = some k ∧ intToStr k ∉ serials tbl ∧
      serials t = serials tbl ++ [intToStr k] := by
  simp only [createPatient] at h
  by_cases h1 : pyStrip f.name = ""
  · rw [if_pos h1] at h
    simp at h
  rw [if_neg h1] at h
  by_cases h2 : pyStrip f.email = ""
  · rw [if_pos h2] at h
    simp at h
  rw [if_neg h2] at h
  by_cases h3 : pyStrip f.gender = ""
  · rw [if_pos h3] at h
    simp at h
  rw [if_neg h3] at h
  by_cases h4 : pyStrip f.age = ""
  · rw [if_pos h4] at h
    simp at h
  rw [if_neg h4] at h
  by_cases h5 : pyStrip f.phone = ""
  · rw [if_pos h5] at h
    simp at h
  rw [if_neg h5] at h
  cases hage : toNumeric? f.age with
  | none => rw [hage] at h; simp at h
  | some a =>
    simp only [hage] at h
    cases hser : toNumeric? f.serial with
    | none => rw [hser] at h; simp at h
    | some k =>
      simp only [hser] at h
      by_cases hk : intToStr k ∈ serials tbl
      · rw [if_pos hk] at h
        simp at h
      · rw [if_neg hk] at h
        simp only [Except.ok.injEq] at h
        subst h
        exact ⟨k, rfl, hk, by simp [serials]⟩

theorem serials_set (tbl : List Row) (i : Nat) (r : Row) :
    serials (tbl.set i r) = (serials tbl).set i r.serialNo := by
  simp [serials, List.map_set]

theorem matchIdxs_sound {tbl : List Row} {orig : String} {i : Nat}
    (h : i ∈ matchIdxs tbl orig) :
    i < tbl.length ∧ (serials tbl)[i]? = some orig := by
  simp only [matchIdxs, List.mem_filter, List.mem_range, decide_eq_true_eq] at h
  refine ⟨h.1, ?_⟩
  have hlt : i < (serials tbl).length := by simpa [serials] using h.1
  have h2 : (serials tbl)[i]? = Option.map Row.serialNo tbl[i]? := by
    simp [serials, List.getElem?_map]
  have h3 : tbl[i]? = some (tbl.getD i emptyRow) := by
    rw [List.getD_eq_getElem tbl emptyRow h.1, List.getElem?_eq_getElem h.1]
  rw [h2, h3]
  exact congrArg some h.2

theorem saveChanges_ok {tbl : List Row} {orig : String} {e : EditForm}
    {t : List Row} (h : saveChanges tbl orig e = Except.ok t) :
    ∃ idx ∈ matchIdxs tbl orig,
      (e.serialNo = orig ∨ e.serialNo ∉ serials tbl) ∧
      t = tbl.set idx (applyEditForm (tbl.getD idx emptyRow) e) := by
  simp only [saveChanges] at h
  by_cases hfound : (matchIdxs tbl orig).any (fun i => decide (i ≠ 0)) = false
  · rw [if_pos hfound] at h
    simp at h
  · rw [if_neg hfound] at h
    by_cases hconf : e.serialNo ≠ orig ∧ e.serialNo ∈ serials tbl
    · rw [if_pos hconf] at h
      simp at h
    · rw [if_neg hconf] at h
      simp only [Except.ok.injEq] at h
      have hne : matchIdxs tbl orig ≠ [] := by
        intro hnil
        rw [hnil] at hfound
        simp at hfound
      refine ⟨(matchIdxs tbl orig).headD 0, ?_, ?_, h.symm⟩
      · cases hml : matchIdxs tbl orig with
        | nil => exact absurd hml hne
        | cons a l => simp
      · rcases Decidable.em (e.serialNo = orig) with he | he
        · exact Or.inl he
        · exact Or.inr (fun hmem => hconf ⟨he, hmem⟩)

theorem editDuplicateSerial_ok {tbl : List Row} {orig newSer : String}
    {t : List Row} (h : editDuplicateSerial tbl orig newSer = Except.ok t) :
    t = tbl ∨ (newSer ∉ serials tbl ∧
      ∃ i, t = tbl.set i { tbl.getD i emptyRow with serialNo := newSer }) := by
  simp only [editDuplicateSerial] at h
  by_cases h0 : newSer = "" ∨ newSer = orig
  · rw [if_pos h0] at h
    simp only [Except.ok.injEq] at h
    exact Or.inl h.symm
  · rw [if_neg h0] at h
    by_cases hd : isDigitStr newSer = false
    · rw [if_pos hd] at h
      simp at h
    · rw [if_neg hd] at h
      by_cases hmem : newSer ∈ serials tbl
      · rw [if_pos hmem] at h
        simp at h
      · rw [if_neg hmem] at h
        cases hml : matchIdxs tbl orig with
        | nil => simp only [hml] at h; simp at h
        | cons i l =>
          simp only [hml, Except.ok.injEq] at h
          exact Or.inr ⟨hmem, i, h.symm⟩

theorem nodup_applyOp {tbl : List Row} (op : Op)
    (h : (serials tbl).Nodup) : (serials (applyOp tbl op)).Nodup := by
  cases op with
  | create f =>
    cases hc : createPatient tbl f with
    | error e => simpa [applyOp, hc] using h
    | ok t =>
      obtain ⟨k, _, hk, hser⟩ := createPatient_ok hc
      simp only [applyOp, hc]
      rw [hser, List.nodup_append]
      refine ⟨h, List.nodup_singleton _, ?_⟩
      intro a ha hae
      have hae2 : a = intToStr k := by simpa using hae
      rw [hae2] at ha
      exact hk ha
  | editWin orig e =>
    cases hs : saveChanges tbl orig e with
    | error err => simpa [applyOp, hs] using h
    | ok t =>
      obtain ⟨idx, hidx, hdisj, ht⟩ := saveChanges_ok hs
      simp only [applyOp, hs]
      rw [ht, serials_set]
      refine nodup_set h ?_
      rcases hdisj with he | he
      · right
        have hm := matchIdxs_sound hidx
        rw [hm.2]
        have : (applyEditForm (tbl.getD idx emptyRow) e).serialNo = e.serialNo := rfl
        rw [this, he]
      · left
        simpa using he
  | editDup orig newSer =>
    cases hd : editDuplicateSerial tbl orig newSer with
    | error err => simpa [applyOp, hd] using h
    | ok t =>
      simp only [applyOp, hd]
      rcases editDuplicateSerial_ok hd with ht | ⟨hmem, i, ht⟩
      · rw [ht]
        exact h
      · rw [ht, serials_set]
        exact nodup_set h (Or.inl (by simpa using hmem))
  | del ids =>
    by_cases hemp : ids.isEmpty
    · simpa [applyOp, deleteChecked, hemp] using h
    · have hemp' : ids.isEmpty = false := Bool.eq_false_iff.mpr hemp
      simp only [applyOp, deleteChecked, hemp', Bool.false_eq_true, if_false]
      have : serials (tbl.filter (fun r => decide (r.serialNo ∉ ids)))
          = (serials tbl).filter (fun s => decide (s ∉ ids)) := by
        rw [serials, serials, List.filter_map]
        rfl
      rw [this]
      exact h.filter _
  | imp ext =>
    simp only [applyOp]
    rw [importSerials tbl ext, List.nodup_append]
    refine ⟨h, ?_, ?_⟩
    · refine List.Nodup.map_on ?_ (List.nodup_range _)
      intro x _ y _ hxy
      have := intToStr_injective hxy
      omega
    · intro s hs
      exact import_fresh tbl ext.length s hs

/-- C1: starting from a table whose serial numbers are pairwise distinct
as text, every sequence of mutating operations (Create, edit-window save,
duplicates-page serial edit, Delete, Import) preserves that distinctness;
moreover Create is rejected and the table unchanged when the normalised
proposed serial is already present, and both identifier edits are
rejected with the table unchanged when the proposed serial is already in
use. -/
theorem spec_c1 :
    (∀ (ops : List Op) (tbl : List Row), (serials tbl).Nodup →
      (serials (applyOps tbl ops)).Nodup) ∧
    (∀ (tbl : List Row) (f : NewForm) (k : Int),
      toNumeric? f.serial = some k → intToStr k ∈ serials tbl →
      applyOp tbl (Op.create f) = tbl ∧
      ∃ err, createPatient tbl f = Except.error err) ∧
    (∀ (tbl : List Row) (orig : String) (e : EditForm),
      e.serialNo ∈ serials tbl → e.serialNo ≠ orig →
      applyOp tbl (Op.editWin orig e) = tbl ∧
      ∃ err, saveChanges tbl orig e = Except.error err) ∧
    (∀ (tbl : List Row) (orig newSer : String),
      newSer ∈ serials tbl → applyOp tbl (Op.editDup orig newSer) = tbl ∧
        (newSer ≠ "" → newSer ≠ orig →
          ∃ err, editDuplicateSerial tbl orig newSer = Except.error err)) := by
  refine ⟨?_, ?_, ?_, ?_⟩
  · intro ops
    induction ops with
    | nil => intro tbl h; exact h
    | cons op ops ih =>
      intro tbl h
      have h1 : applyOps tbl (op :: ops) = applyOps (applyOp tbl op) ops := rfl
      rw [h1]
      exact ih _ (nodup_applyOp op h)
  · intro tbl f k hk hmem
    cases hc : createPatient tbl f with
    | error e => exact ⟨by simp [applyOp, hc], e, rfl⟩
    | ok t =>
      obtain ⟨k2, hk2, hnot, _⟩ := createPatient_ok hc
      rw [hk] at hk2
      cases hk2
      exact absurd hmem hnot
  · intro tbl orig e hmem hne
    cases hs : saveChanges tbl orig e with
    | error err => exact ⟨by simp [applyOp, hs], err, rfl⟩
    | ok t =>
      obtain ⟨idx, _, hdisj, _⟩ := saveChanges_ok hs
      rcases hdisj with he | he
      · exact absurd he hne
      · exact absurd hmem he
  · intro tbl orig newSer hmem
    have hunch : applyOp tbl (Op.editDup orig newSer) = tbl := by
      cases hd : editDuplicateSerial tbl orig newSer with
      | error err => simp [applyOp, hd]
      | ok t =>
        rcases editDuplicateSerial_ok hd with ht | ⟨hnot, _⟩
        · simp [applyOp, hd, ht]
        · exact absurd hmem hnot
    refine ⟨hunch, ?_⟩
    intro hne0 hneo
    have h0 : ¬(newSer = "" ∨ newSer = orig) := by
      rintro (h | h)
      · exact hne0 h
      · exact hneo h
    by_cases hd : isDigitStr newSer = false
    · exact ⟨DupEditError.notNumeric, by
        simp only [editDuplicateSerial, if_neg h0, if_pos hd]⟩
    · exact ⟨DupEditError.serialExists, by
        simp only [editDuplicateSerial, if_neg h0, if_neg hd, if_pos hmem]⟩

/-- Witness for C1: on the example table a create with the used serial 3,
an edit-window save changing a serial to the used 7, and a
duplicates-page edit to the used 7 all leave the table unchanged, and a
whole operation sequence keeps the serials distinct. -/
theorem spec_c1_w :
    (serials (applyOps t357 [Op.del ["x"], Op.imp ext3])).Nodup ∧
    applyOp t357 (Op.create formDup) = t357 ∧
    applyOp t357 (Op.editDup "3" "7") = t357 :=
  ⟨spec_c1.1 [Op.del ["x"], Op.imp ext3] t357 (by decide),
   (spec_c1.2.1 t357 formDup 3 (by decide) (by decide)).1,
   (spec_c1.2.2.2 t357 "3" "7" (by decide)).1⟩

/-- C8: the duplicates listing excludes rows whose four key fields are all
empty, consists exactly of the remaining rows whose composite key
`(Name, Email, PhoneNo, AadharNo)` occurs at least twice, and is ordered
by `(Name, SerialNo)` ascending, missing (empty) cells last as under the
default `na_position='last'`. -/
theorem spec_c8 (tbl : List Row) :
    (findDuplicates tbl).Perm (dupSelected tbl) ∧
    (∀ r ∈ findDuplicates tbl, keyAllEmpty r = false ∧
      2 ≤ (dupCandidates tbl).countP (fun x => decide (dupKey x = dupKey r))) ∧
    (∀ r ∈ tbl, keyAllEmpty r = false →
      2 ≤ (dupCandidates tbl).countP (fun x => decide (dupKey x = dupKey r)) →
      r ∈ findDuplicates tbl) ∧
    List.Pairwise (fun a b => nameSerialLE a b = true) (findDuplicates tbl) := by
  refine ⟨List.perm_insertionSort _ _, ?_, ?_, ?_⟩
  · intro r hr
    rw [findDuplicates, List.mem_insertionSort] at hr
    have h1 := List.mem_filter.mp hr
    have h2 := List.mem_filter.mp h1.1
    constructor
    · have hq := h2.2
      simpa using hq
    · simpa using h1.2
  · intro r hrt hke hc
    rw [findDuplicates, List.mem_insertionSort]
    refine List.mem_filter.mpr ⟨List.mem_filter.mpr ⟨hrt, by simp [hke]⟩, ?_⟩
    simpa using hc
  · letI : IsTotal Row (fun a b => nameSerialLE a b = true) :=
      ⟨fun a b => by simpa [Bool.or_eq_true] using nameSerialLE_total a b⟩
    letI : IsTrans Row (fun a b => nameSerialLE a b = true) :=
      ⟨fun a b c => nameSerialLE_trans⟩
    exact List.sorted_insertionSort _ _

/-- Witness for C8: two records sharing name A, email a@x, phone 1 and an
empty aadhar form exactly one group of two, ordered by serial, with the
unrelated third record excluded; and a blank-name duplicate group is
listed after the named group, the missing Name sorting last. -/
theorem spec_c8_w :
    findDuplicates tDup = [dupRow "1" "A" "a@x" "1", dupRow "2" "A" "a@x" "1"] ∧
    dupRow "1" "A" "a@x" "1" ∈ findDuplicates tDup ∧
    (findDuplicates tDup).length = 2 ∧
    findDuplicates tDupBlank =
      [dupRow "2" "A" "a@x" "1", dupRow "4" "A" "a@x" "1",
       dupRow "1" "" "e@x" "", dupRow "3" "" "e@x" ""] :=
  ⟨by decide, (spec_c8 tDup).2.2.1 _ (by decide) (by decide) (by decide),
   by decide, by decide⟩

/-- C7 counterexample: sorting by the text key Name, the program places
the missing (empty) Name after the named rows (`na_position='last'`), so
the result is not lexicographically ordered on the textual value: the
two-row table [blank-name serial 1, name A serial 2] arrives in
lexicographic text order, yet the sort returns the A row first. -/
theorem spec_c7_cx :
    getFilteredDf tBlankName qName = [Row.toV rNameA, Row.toV rBlankName] ∧
    List.Pairwise (fun a b =>
      strLe (dcellStr (VRow.get a "Name")) (dcellStr (VRow.get b "Name")) = true)
      (dfBeforeSort tBlankName qName) ∧
    ¬ List.Pairwise (fun a b =>
      strLe (dcellStr (VRow.get a "Name")) (dcellStr (VRow.get b "Name")) = true)
      (getFilteredDf tBlankName qName) := by decide

/-- C7 amended: with a sort key among the schema columns the view's sort
returns a permutation of its input that is pairwise ordered by the sort
column: numeric comparison with the unparsable entries last for SerialNo
and Age (whose column is parsed to numeric cells before comparison), and
text comparison with the missing (empty) cells last for every other key;
the relative order of rows with equal sort cells is left unspecified by
the source's default quicksort, so no tie order is asserted. -/
theorem spec_c7_amended (tbl : List Row) (q : Query)
    (hk : q.sortBy ∈ DEFAULT_COLUMNS) :
    (getFilteredDf tbl q).Perm (dfBeforeSort tbl q) ∧
    List.Pairwise (fun a b => rowLE q.sortBy a b = true) (getFilteredDf tbl q) ∧
    (∀ a : String, a ≠ "" →
      dcellLE (DCell.s a) (DCell.s "") = true ∧
      dcellLE (DCell.s "") (DCell.s a) = false) ∧
    (q.sortBy = "SerialNo" ∨ q.sortBy = "Age" →
      ∀ v ∈ dfBeforeSort tbl q, ∃ o, VRow.get v q.sortBy = DCell.n o) := by
  have hcols : decide (q.sortBy ∈ DEFAULT_COLUMNS) = true := decide_eq_true hk
  have hout : getFilteredDf tbl q = List.insertionSort
      (fun a b => rowLE q.sortBy a b = true) (dfBeforeSort tbl q) := by
    rw [getFilteredDf, if_pos hcols]
  refine ⟨?_, ?_, ?_, ?_⟩
  · rw [hout]
    exact List.perm_insertionSort _ _
  · rw [hout]
    letI : IsTotal VRow (fun a b => rowLE q.sortBy a b = true) :=
      ⟨fun a b => by simpa [Bool.or_eq_true] using rowLE_total q.sortBy a b⟩
    letI : IsTrans VRow (fun a b => rowLE q.sortBy a b = true) :=
      ⟨fun a b c => rowLE_trans q.sortBy⟩
    exact List.sorted_insertionSort _ _
  · intro a ha
    constructor
    · simp [dcellLE, naLe, ha]
    · simp [dcellLE, naLe, ha]
  · intro hnum v hv
    have hn2 : decide (q.sortBy ∈ ["SerialNo", "Age"]) = true := by
      rcases hnum with h | h <;> simp [h]
    rw [dfBeforeSort, if_pos hn2] at hv
    obtain ⟨w, _, hw⟩ := List.mem_map.mp hv
    rcases hnum with h | h
    · rw [h] at hw ⊢
      rw [← hw]
      exact ⟨toNumericCell w.serialNo, by simp [numifyCol, VRow.get]⟩
    · rw [h] at hw ⊢
      rw [← hw]
      exact ⟨toNumericCell w.age, by simp [numifyCol, VRow.get]⟩

/-- Witness for the amended C7: sorting the example table by serial gives
a permutation ordered by the parsed serial with the unparsable entry
last, and the blank-name sort-by-Name view is a permutation of its
input. -/
theorem spec_c7_amended_w :
    (getFilteredDf t357 qSerial).Perm (dfBeforeSort t357 qSerial) ∧
    List.Pairwise (fun a b => rowLE qSerial.sortBy a b = true)
      (getFilteredDf t357 qSerial) ∧
    (getFilteredDf tBlankName qName).Perm (dfBeforeSort tBlankName qName) :=
  ⟨(spec_c7_amended t357 qSerial (by decide)).1,
   (spec_c7_amended t357 qSerial (by decide)).2.1,
   (spec_c7_amended tBlankName qName (by decide)).1⟩

theorem filteredDf_sub {tbl : List Row} {q : Query} :
    ∀ w ∈ filteredDf tbl q, ∃ r ∈ tbl, w = Row.toV r := by
  have hbase : ∀ u ∈ tbl.map Row.toV, ∃ r ∈ tbl, u = Row.toV r := by
    intro u hu
    obtain ⟨r, hr, hru⟩ := List.mem_map.mp hu
    exact ⟨r, hr, hru.symm⟩
  intro w hw
  simp only [filteredDf] at hw
  by_cases hg : q.genderFilter = "All"
  · rw [if_pos hg] at hw
    by_cases hs : pyLower (pyStrip q.search) = ""
    · rw [if_pos hs] at hw
      exact hbase w hw
    · rw [if_neg hs] at hw
      exact hbase w (List.mem_filter.mp hw).1
  · rw [if_neg hg] at hw
    have hw2 := (List.mem_filter.mp hw).1
    by_cases hs : pyLower (pyStrip q.search) = ""
    · rw [if_pos hs] at hw2
      exact hbase w hw2
    · rw [if_neg hs] at hw2
      exact hbase w (List.mem_filter.mp hw2).1

/-- C10: when the view is sorted by `SerialNo` or `Age`, every row it
returns is a stored row with exactly that column replaced by its parsed
numeric value (missing when unparsable), every other column still the
stored text, while the stored table itself remains textual. -/
theorem spec_c10 (tbl : List Row) (q : Query)
    (hk : q.sortBy = "SerialNo" ∨ q.sortBy = "Age") :
    (getFilteredDf tbl q).Perm
      ((filteredDf tbl q).map (numifyCol q.sortBy)) ∧
    (∀ v ∈ getFilteredDf tbl q, ∃ r ∈ tbl,
      VRow.get v q.sortBy = DCell.n (toNumeric? (Row.get r q.sortBy)) ∧
      (∀ c ∈ DEFAULT_COLUMNS, c ≠ q.sortBy →
        VRow.get v c = DCell.s (Row.get r c))) := by
  have hnum : decide (q.sortBy ∈ ["SerialNo", "Age"]) = true := by
    rcases hk with h | h <;> simp [h]
  have hcols : decide (q.sortBy ∈ DEFAULT_COLUMNS) = true := by
    rcases hk with h | h <;> simp [h, DEFAULT_COLUMNS]
  have hin : dfBeforeSort tbl q = (filteredDf tbl q).map (numifyCol q.sortBy) := by
    rw [dfBeforeSort, if_pos hnum]
  have hout : getFilteredDf tbl q = List.insertionSort
      (fun a b => rowLE q.sortBy a b = true) (dfBeforeSort tbl q) := by
    rw [getFilteredDf, if_pos hcols]
  constructor
  · rw [hout, hin]
    exact List.perm_insertionSort _ _
  · intro v hv
    rw [hout, List.mem_insertionSort, hin] at hv
    obtain ⟨w, hwmem, hwv⟩ := List.mem_map.mp hv
    obtain ⟨r, hr, hwr⟩ := filteredDf_sub w hwmem
    refine ⟨r, hr, ?_, ?_⟩
    · rw [← hwv, hwr]
      rcases hk with h | h <;> rw [h] <;>
        simp [numifyCol, VRow.get, Row.toV, Row.get, toNumericCell]
    · intro c hc hne
      rw [← hwv, hwr]
      simp only [DEFAULT_COLUMNS] at hc
      rcases hk with h | h <;> rw [h] at hne ⊢ <;> fin_cases hc <;>
        first
        | exact absurd rfl hne
        | simp [numifyCol, VRow.get, Row.toV, Row.get]

/-- Witness for C10: the sorted view of the example table is a permutation
of the filtered rows with the serial column parsed to numbers. -/
theorem spec_c10_w :
    (getFilteredDf t357 qSerial).Perm
      ((filteredDf t357 qSerial).map (numifyCol qSerial.sortBy)) :=
  (spec_c10 t357 qSerial (Or.inl rfl)).1
